import Mathlib

/-!
Verification development for the playback orchestration engine of
`discord-playbot` (`src/play.py`).

The Python source is shallowly embedded as follows.

* A song dictionary (built in the `play` command) becomes the `Song`
  structure: the entry's `stream_url` value is `Option String`, where
  `none` models Python `None` (the dict key is always present) and
  `some ""` models the cleared locator `""`.
* `yt_dlp` extraction (`get_url_info`) is an environment function
  `Env.info : String → Option UrlInfo`; `none` models `extract_info`
  raising an exception, `some i` a returned info dict whose `"title"`,
  `"url"` and `"webpage_url"` keys may each be missing (`Option`).
  `get_stream_url url` is `(Env.info url).bind UrlInfo.url`.
* One guild's runtime state is `SessState`: the guild's entry of the
  `queues` dict plus an abstraction of the `discord.VoiceClient`:
  `outstanding` counts `vc.play` calls whose `after` callback has not
  fired yet (`vc.is_playing()` is `0 < outstanding`; no code path ever
  pauses, so `vc.is_paused()` is constantly false), `pending` counts
  `_safe_play_next` tasks scheduled by `call_soon_threadsafe` and not
  yet run on the event loop, `starts` logs the locator of every
  `vc.play` call and `stops` counts `vc.stop` calls.
* Every command handler and every scheduled task is one atomic step of
  the per-guild transition system `stepEv` (the event loop serialises
  them); the asynchronous transport completion is the `finish` event
  (the `after` callback schedules a task) followed by the `signal`
  event (the event loop runs `_safe_play_next`).
* Exceptions: `play_next` wraps its whole body in `try/except`, so a
  raising `yt_dlp` call aborts it leaving the mutations already made;
  `_safe_play_next` catches the `IndexError` of `pop(0)` on an empty
  queue; the `skip` handler has no handler at all, so its `IndexError`
  escapes (modelled by `SkipOutcome.raised`).
-/

namespace PlayBot

/-- One entry of a guild's queue or of a playlist: the dict
`{"title": ..., "stream_url": ..., "webpage_url": ..., "requester": ...}`
built in the `play` command.  `webpage_url` is the canonical reference,
`stream_url` the (possibly cleared or absent) stream locator. -/
structure Song where
  title : String
  stream_url : Option String
  webpage_url : String
  requester : String
deriving DecidableEq, Repr

/-- Result of `get_url_info` when `yt_dlp.extract_info` does not raise:
the three keys the source reads, each possibly missing. -/
structure UrlInfo where
  title : Option String
  url : Option String
  webpage_url : Option String
deriving DecidableEq, Repr

/-- The external resolution backend: `info url = none` models
`extract_info` raising, `some i` a successful extraction (for playlist
links, already the first entry, as in `get_url_info`). -/
structure Env where
  info : String → Option UrlInfo

/-- State of one guild's session: its queue plus the voice-client
abstraction described in the module docstring. -/
structure SessState where
  queue : List Song
  outstanding : Nat
  pending : Nat
  starts : List String
  stops : Nat
deriving DecidableEq, Repr

/-- Python truthiness of a string-or-None value (`if not x:` in the
source): `None` and `""` are falsy. -/
def strFalsy : Option String → Bool
  | none => true
  | some s => s = ""

/-- Effect of `vc.stop()`: playback ends, the `after` callback fires on
the player thread and schedules one `_safe_play_next` task. -/
def vcStop (s : SessState) : SessState :=
  { s with outstanding := s.outstanding - 1, pending := s.pending + 1,
           stops := s.stops + 1 }

/-- Effect of `vc.play(source, after=...)`: one more start whose
completion callback is pending; the locator is logged. -/
def vcPlay (loc : String) (s : SessState) : SessState :=
  { s with outstanding := s.outstanding + 1, starts := s.starts ++ [loc] }

/-- Prefetch block of `play_next` (lines 153-159): if the queue still
has a second entry whose locator is cleared, resolve it now; a raising
resolver aborts `play_next` (entry untouched), a missing/empty URL pops
the entry (`queues[guild_id].pop(1)`), a proper URL is stored in the
entry.  Takes and returns the part of the queue after the head. -/
def prefetchNext (env : Env) : List Song → List Song
  | [] => []
  | nxt :: rest2 =>
    if nxt.stream_url = some "" then
      match env.info nxt.webpage_url with
      | none => nxt :: rest2
      | some i =>
        match i.url with
        | none => rest2
        | some u => if u = "" then rest2 else { nxt with stream_url := some u } :: rest2
    else nxt :: rest2

/-- Tail of `play_next` once the head `song` is kept (lines 138-159):
build the FFmpeg source from the head's locator (constructing it from
Python `None` raises, aborting `play_next` with the queue unchanged),
stop any current playback, call `vc.play`, then run the prefetch
block.  `rest` is the queue after the head. -/
def startAndPrefetch (env : Env) (song : Song) (rest : List Song) (s : SessState) :
    SessState :=
  match song.stream_url with
  | none => { s with queue := song :: rest }
  | some loc =>
    let s1 := if 0 < s.outstanding then vcStop s else s
    let s2 := vcPlay loc s1
    { s2 with queue := song :: prefetchNext env rest }

/-- Body of `play_next` (lines 120-164), recursing on the queue: an
empty queue does nothing; a head with cleared locator is re-resolved —
a raising resolver aborts (queue unchanged), a missing/empty URL pops
the head and recurses, a proper URL is stored and the head is played;
a head whose locator is not the cleared string is played as is. -/
def playNextAux (env : Env) : List Song → SessState → SessState
  | [], s => { s with queue := [] }
  | song :: rest, s =>
    if song.stream_url = some "" then
      match env.info song.webpage_url with
      | none => { s with queue := song :: rest }
      | some i =>
        match i.url with
        | none => playNextAux env rest s
        | some u =>
          if u = "" then playNextAux env rest s
          else startAndPrefetch env { song with stream_url := some u } rest s
    else startAndPrefetch env song rest s

/-- `play_next(guild_id, vc)` on the session's own queue. -/
def playNext (env : Env) (s : SessState) : SessState :=
  playNextAux env s.queue s

/-- `_safe_play_next` (lines 104-110): pop the head that supposedly
just finished, then `play_next`; `pop(0)` on an empty queue raises
`IndexError`, which the `except` swallows, leaving the state as is. -/
def safePlayNext (env : Env) (s : SessState) : SessState :=
  match s.queue with
  | [] => s
  | _ :: rest => playNextAux env rest { s with queue := rest }

/-- The event loop runs one scheduled `_safe_play_next` task, if any. -/
def deliverSignal (env : Env) (s : SessState) : SessState :=
  if 0 < s.pending then safePlayNext env { s with pending := s.pending - 1 } else s

/-- `start_playback` (lines 112-118): do nothing while playing (or
paused, which never happens), else `play_next`. -/
def startPlayback (env : Env) (s : SessState) : SessState :=
  if 0 < s.outstanding then s else playNext env s

/-- Song built by the `play` command from a successful `get_url_info`:
`info.get("title", "Unknown")`, `info.get("url")`,
`info.get("webpage_url", url)` and the requester's display name. -/
def mkSong (i : UrlInfo) (url requester : String) : Song :=
  { title := i.title.getD "Unknown", stream_url := i.url,
    webpage_url := i.webpage_url.getD url, requester := requester }

/-- Songs the `play` command appends for a given URL: one on successful
extraction, none when `get_url_info` raises. -/
def enqSongs (env : Env) (url requester : String) : List Song :=
  match env.info url with
  | none => []
  | some i => [mkSong i url requester]

/-- The `play` command (lines 296-328) for an existing session: resolve
the URL (a raising resolver is reported to the user, nothing else
happens), append the song, then `start_playback`. -/
def playCmd (env : Env) (url requester : String) (s : SessState) : SessState :=
  match env.info url with
  | none => s
  | some i => startPlayback env { s with queue := s.queue ++ [mkSong i url requester] }

/-- The `clear` command (lines 383-391): empty the queue, then stop the
transport if it is playing. -/
def clearCmd (s : SessState) : SessState :=
  let s1 := { s with queue := ([] : List Song) }
  if 0 < s1.outstanding then vcStop s1 else s1

/-- The `skip` command (lines 372-381) as a step of the session model
(queue known to exist): no-op unless playing; with an empty queue the
`[0]` indexing raises before `vc.stop`, leaving the state unchanged;
otherwise only `vc.stop` is requested — the queue is never mutated. -/
def skipOp (s : SessState) : SessState :=
  if 0 < s.outstanding then
    match s.queue with
    | [] => s
    | _ :: _ => vcStop s
  else s

/-- Natural end of the current track: the transport fires the `after`
callback, which schedules one `_safe_play_next` task. -/
def naturalFinish (s : SessState) : SessState :=
  if 0 < s.outstanding then
    { s with outstanding := s.outstanding - 1, pending := s.pending + 1 }
  else s

/-- Python's `x[i], x[j] = x[j], x[i]` on a list: positions `i` and `j`
exchange their elements (identity when either index is out of range,
which `random.shuffle` never produces). -/
def swapIdx (l : List α) (i j : Nat) : List α :=
  match l[i]?, l[j]? with
  | some a, some b => (l.set i b).set j a
  | _, _ => l

/-- The Fisher-Yates loop of `random.shuffle`: for `i` from `len-1`
down to `1`, draw `j ≤ i` and swap positions `i` and `j`.  The random
draws are supplied by `rand`, reduced into range exactly as
`_randbelow(i+1)` guarantees. -/
def fyLoop (rand : Nat → Nat) : Nat → List α → List α
  | 0, x => x
  | i + 1, x => fyLoop rand i (swapIdx x (i + 1) (rand (i + 1) % (i + 2)))

/-- `random.shuffle(x)` parametrised by the source of randomness. -/
def pyShuffle (rand : Nat → Nat) (x : List α) : List α :=
  fyLoop rand (x.length - 1) x

/-- Queue transformation of the `shuffle` command (lines 357-370) for a
guild whose queue exists: no-op with at most two entries, otherwise
`[queue[0]] + random.shuffle(queue[1:])`. -/
def shuffleGuild (rand : Nat → Nat) (l : List Song) : List Song :=
  if l.length ≤ 2 then l
  else
    match l with
    | [] => l
    | now_playing :: rest_of_queue => now_playing :: pyShuffle rand rest_of_queue

/-- The `shuffle` command including the guard: an absent queue
(`guild_id not in queues`) is also a no-op. -/
def shuffleCmd (rand : Nat → Nat) : Option (List Song) → Option (List Song)
  | none => none
  | some l => some (shuffleGuild rand l)

/-- Observable outcome of one run of the `skip` handler:
`queueAfter` is the guild's queue afterwards (`none` when the guild has
no queue at all), `stopCalled` whether `vc.stop()` ran, `replied`
whether any message was sent, `raised` whether the handler escaped with
an uncaught `IndexError`. -/
structure SkipOutcome where
  queueAfter : Option (List Song)
  stopCalled : Bool
  replied : Bool
  raised : Bool
deriving DecidableEq, Repr

/-- The `skip` command (lines 372-381) with the queue's existence made
explicit: not playing replies and returns; otherwise
`queues.get(guild_id, [None])[0]` yields `None` for an absent queue
(nothing further happens), raises `IndexError` for an existing empty
queue (before any reply or stop), and yields the head otherwise, after
which the handler replies and calls `vc.stop()`. -/
def skipCmd (playing : Bool) (q : Option (List Song)) : SkipOutcome :=
  if playing then
    match q with
    | none => ⟨none, false, false, false⟩
    | some [] => ⟨some [], false, false, true⟩
    | some (x :: rest) => ⟨some (x :: rest), true, true, false⟩
  else ⟨q, false, true, false⟩

/-- Events a session processes, each serialised on the event loop. -/
inductive Ev where
  | play (url requester : String)
  | skip
  | clear
  | shuffle (rand : Nat → Nat)
  | finish
  | signal

/-- One atomic step of a session. -/
def stepEv (env : Env) : Ev → SessState → SessState
  | .play url requester, s => playCmd env url requester s
  | .skip, s => skipOp s
  | .clear, s => clearCmd s
  | .shuffle rand, s => { s with queue := shuffleGuild rand s.queue }
  | .finish, s => naturalFinish s
  | .signal, s => deliverSignal env s

/-- A fresh session: empty queue, nothing playing, nothing scheduled. -/
def initSess : SessState := ⟨[], 0, 0, [], 0⟩

/-- States a session can reach from creation. -/
inductive Reachable (env : Env) : SessState → Prop where
  | init : Reachable env initSess
  | step (e : Ev) {s : SessState} : Reachable env s → Reachable env (stepEv env e s)

/-- Head of `play_next` would be dropped: its locator is cleared and
extraction succeeds but yields a falsy `"url"`. -/
def dropsHead (env : Env) (e : Song) : Prop :=
  e.stream_url = some "" ∧
    ∃ i, env.info e.webpage_url = some i ∧ (i.url = none ∨ i.url = some "")

/-- Head of `play_next` starts playback with locator `u`: either its
locator is already `u` (not the cleared string), or it is cleared and
extraction yields `u`. -/
def playsWith (env : Env) (e : Song) (u : String) : Prop :=
  u ≠ "" ∧
    ((e.stream_url ≠ some "" ∧ e.stream_url = some u) ∨
     (e.stream_url = some "" ∧ ∃ i, env.info e.webpage_url = some i ∧ i.url = some u))

/-- Loop of `add_to_playlist` (lines 483-489): walk the queue, skipping
songs whose canonical reference is already known, and for new ones
clear the locator in the song itself, append that very song to the
playlist and count it.  Returns (playlist, queue as left behind by the
in-place mutations, number added). -/
def addLoop : List Song → List String → List Song → List Song × List Song × Nat
  | [], _, pl => (pl, [], 0)
  | s :: rest, ex, pl =>
    if s.webpage_url ∈ ex then
      let r := addLoop rest ex pl
      (r.1, s :: r.2.1, r.2.2)
    else
      let s' := { s with stream_url := some "" }
      let r := addLoop rest (s.webpage_url :: ex) (pl ++ [s'])
      (r.1, s' :: r.2.1, r.2.2 + 1)

/-- `add_to_playlist` merge (lines 477-489) for playlist `pl` and a
non-empty queue `q`: the lookup set is initialised with the playlist's
canonical references. -/
def addToPlaylist (pl q : List Song) : List Song × List Song × Nat :=
  addLoop q (pl.map Song.webpage_url) pl

/-- Values of the song dicts the source persists: every key maps to a
string or to Python `None`. -/
inductive PyVal where
  | str (s : String)
  | nullv
deriving DecidableEq, Repr

/-- The key/value pairs of one song dict exactly as `json.dump` writes
them in `write_playlist`: all four keys, including `stream_url`. -/
def songFields (s : Song) : List (String × PyVal) :=
  [("title", .str s.title),
   ("stream_url", match s.stream_url with | some v => .str v | none => .nullv),
   ("webpage_url", .str s.webpage_url),
   ("requester", .str s.requester)]

/-- The record `write_playlist` serialises for a playlist: the ordered
list of its song dicts, each with all of its fields. -/
def persistRecord (pl : List Song) : List (List (String × PyVal)) :=
  pl.map songFields

/-- Modelled from the spec: the persisted entry shape the specification
claims — `{title, canonicalReference, requester}` with no stream
locator field. -/
def specPersistEntry (s : Song) : List (String × PyVal) :=
  [("title", .str s.title),
   ("webpage_url", .str s.webpage_url),
   ("requester", .str s.requester)]

/-- A heap of song objects: Python dicts are mutable and aliased, so we
address them by identity. -/
def Store := Nat → Song

/-- In-place mutation `song["stream_url"] = v` of the object `id`. -/
def setLoc (st : Store) (id : Nat) (v : Option String) : Store :=
  fun k => if k = id then { st k with stream_url := v } else st k

/-- Count one more newly added song (the `added_count += 1` of the
source). -/
def atpHsucc (r : Store × List Nat × Nat) : Store × List Nat × Nat :=
  (r.1, r.2.1, r.2.2 + 1)

/-- Heap-level loop of `add_to_playlist`: the queue and the playlist
are lists of object identities into the shared store; a newly merged
song is cleared in place and its identity appended to the playlist. -/
def atpH (st : Store) (ex : List String) (pl : List Nat) :
    List Nat → Store × List Nat × Nat
  | [] => (st, pl, 0)
  | id :: rest =>
    if (st id).webpage_url ∈ ex then atpH st ex pl rest
    else
      atpHsucc (atpH (setLoc st id (some "")) ((st id).webpage_url :: ex) (pl ++ [id]) rest)

/-- Heap-level `add_to_playlist` (lines 477-489). -/
def addToPlaylistShared (st : Store) (queue pl : List Nat) : Store × List Nat × Nat :=
  atpH st (pl.map fun id => (st id).webpage_url) pl queue

/-- Heap-level loop of `play_playlist` (lines 517-525): walk the
playlist's own objects, clear each new one in place and append its
identity to the queue. -/
def ppH (st : Store) (ex : List String) (q : List Nat) :
    List Nat → Store × List Nat
  | [] => (st, q)
  | id :: rest =>
    if (st id).webpage_url ∈ ex then ppH st ex q rest
    else ppH (setLoc st id (some "")) ((st id).webpage_url :: ex) (q ++ [id]) rest

/-- Heap-level `play_playlist` append phase. -/
def playPlaylistShared (st : Store) (pl q : List Nat) : Store × List Nat :=
  ppH st (q.map fun id => (st id).webpage_url) q pl

/-- Concrete resolution backend for concrete runs: `"uX"`, `"uY"` and
`"wg"` resolve fully, `"wb"` extracts but exposes no stream URL (the
`info.get("url")` failure mode), every other reference raises. -/
def envT : Env :=
  ⟨fun u =>
    if u = "uX" then some ⟨some "X", some "sx", some "wx"⟩
    else if u = "uY" then some ⟨some "Y", some "sy", some "wy"⟩
    else if u = "wg" then some ⟨some "G", some "sg", some "wg"⟩
    else if u = "wb" then some ⟨some "B", none, some "wb"⟩
    else none⟩

/-- A Python tuple swap of two list positions is a permutation. -/
theorem swapIdx_perm {α} [DecidableEq α] (l : List α) (i j : Nat) :
    (swapIdx l i j).Perm l := by
  rcases hi : l[i]? with _ | a <;> rcases hj : l[j]? with _ | b <;>
    simp only [swapIdx, hi, hj] <;> try exact List.Perm.refl l
  obtain ⟨hilen, hia⟩ := List.getElem?_eq_some.mp hi
  obtain ⟨hjlen, hjb⟩ := List.getElem?_eq_some.mp hj
  have hjlen2 : j < (l.set i b).length := by simpa using hjlen
  have hsb : (l.set i b)[j] = b := by
    rw [List.getElem_set]
    split
    · rfl
    · exact hjb
  rw [List.perm_iff_count]
  intro x
  rw [List.count_set a x _ j hjlen2, List.count_set b x l i hilen, hsb, hia]
  have hmem : a ∈ l := hia ▸ l.getElem_mem hilen
  by_cases hax : a = x
  · subst hax
    have h1 : 1 ≤ List.count a l := List.count_pos_iff.mpr hmem
    by_cases hbx : b = a <;> simp [hbx] <;> omega
  · by_cases hbx : b = x <;> simp [hbx, hax]

/-- Every pass of the Fisher-Yates loop permutes the list. -/
theorem fyLoop_perm {α} [DecidableEq α] (rand : Nat → Nat) :
    ∀ (n : Nat) (x : List α), (fyLoop rand n x).Perm x := by
  intro n
  induction n with
  | zero => intro x; exact List.Perm.refl x
  | succ n ih =>
    intro x
    exact (ih _).trans (swapIdx_perm x (n + 1) (rand (n + 1) % (n + 2)))

/-- `random.shuffle` permutes the list. -/
theorem pyShuffle_perm {α} [DecidableEq α] (rand : Nat → Nat) (x : List α) :
    (pyShuffle rand x).Perm x :=
  fyLoop_perm rand (x.length - 1) x

/-- C6: shuffling never changes the entry at index 0, permutes the
remaining entries, and is the identity on queues of at most two
entries (absent queues are also untouched). -/
theorem shuffle_fixes_head_permutes_tail (rand : Nat → Nat) (l : List Song) :
    (shuffleGuild rand l).head? = l.head?
    ∧ (shuffleGuild rand l).tail.Perm l.tail
    ∧ (l.length ≤ 2 → shuffleGuild rand l = l)
    ∧ shuffleCmd rand none = none
    ∧ shuffleCmd rand (some l) = some (shuffleGuild rand l) := by
  unfold shuffleGuild
  by_cases h : l.length ≤ 2
  · simp [h, shuffleCmd, shuffleGuild]
  · cases l with
    | nil => simp at h
    | cons hd tl =>
      have h2 : ¬ tl.length ≤ 1 := by simp at h; omega
      simp [h, h2, shuffleCmd, shuffleGuild]
      exact pyShuffle_perm rand tl

theorem shuffle_fixes_head_permutes_tail_witness :
    (shuffleGuild (fun _ => 0) [⟨"a", some "la", "wa", "u"⟩, ⟨"b", some "lb", "wb", "u"⟩, ⟨"c", some "lc", "wc", "u"⟩]).head?
      = ([⟨"a", some "la", "wa", "u"⟩, ⟨"b", some "lb", "wb", "u"⟩, ⟨"c", some "lc", "wc", "u"⟩] : List Song).head?
    ∧ (shuffleGuild (fun _ => 0) [⟨"a", some "la", "wa", "u"⟩, ⟨"b", some "lb", "wb", "u"⟩, ⟨"c", some "lc", "wc", "u"⟩]).tail.Perm
        ([⟨"a", some "la", "wa", "u"⟩, ⟨"b", some "lb", "wb", "u"⟩, ⟨"c", some "lc", "wc", "u"⟩] : List Song).tail
    ∧ (([⟨"a", some "la", "wa", "u"⟩, ⟨"b", some "lb", "wb", "u"⟩, ⟨"c", some "lc", "wc", "u"⟩] : List Song).length ≤ 2 →
        shuffleGuild (fun _ => 0) [⟨"a", some "la", "wa", "u"⟩, ⟨"b", some "lb", "wb", "u"⟩, ⟨"c", some "lc", "wc", "u"⟩]
          = [⟨"a", some "la", "wa", "u"⟩, ⟨"b", some "lb", "wb", "u"⟩, ⟨"c", some "lc", "wc", "u"⟩])
    ∧ shuffleCmd (fun _ => 0) none = none
    ∧ shuffleCmd (fun _ => 0) (some [⟨"a", some "la", "wa", "u"⟩, ⟨"b", some "lb", "wb", "u"⟩, ⟨"c", some "lc", "wc", "u"⟩])
        = some (shuffleGuild (fun _ => 0) [⟨"a", some "la", "wa", "u"⟩, ⟨"b", some "lb", "wb", "u"⟩, ⟨"c", some "lc", "wc", "u"⟩]) :=
  shuffle_fixes_head_permutes_tail (fun _ => 0)
    [⟨"a", some "la", "wa", "u"⟩, ⟨"b", some "lb", "wb", "u"⟩, ⟨"c", some "lc", "wc", "u"⟩]

/-- Cardinality of an insertion, phrased through `erase` so that it
also covers elements already present. -/
theorem card_insert_eq_erase {α} [DecidableEq α] (T : Finset α) (a : α) :
    (insert a T).card = (T.erase a).card + 1 := by
  by_cases h : a ∈ T
  · rw [Finset.insert_eq_self.mpr h]
    exact (Finset.card_erase_add_one h).symm
  · rw [Finset.card_insert_of_not_mem h, Finset.erase_eq_of_not_mem h]

/-- Every song of the merged playlist either was already there or had
its locator cleared by the merge loop. -/
theorem addLoop_mem (q : List Song) :
    ∀ (ex : List String) (pl : List Song) (s : Song),
      s ∈ (addLoop q ex pl).1 → s ∈ pl ∨ s.stream_url = some "" := by
  induction q with
  | nil =>
    intro ex pl s hs
    exact Or.inl hs
  | cons x rest ih =>
    intro ex pl s hs
    by_cases hx : x.webpage_url ∈ ex
    · simp only [addLoop, if_pos hx] at hs
      exact ih _ _ s hs
    · simp only [addLoop, if_neg hx] at hs
      rcases ih _ _ s hs with h | h
      · rcases List.mem_append.mp h with h | h
        · exact Or.inl h
        · simp only [List.mem_singleton] at h
          subst h
          exact Or.inr rfl
      · exact Or.inr h

/-- When every queue song's reference is already known, the merge loop
changes nothing and counts zero. -/
theorem addLoop_all_present (q : List Song) :
    ∀ (ex : List String) (pl : List Song), (∀ s ∈ q, s.webpage_url ∈ ex) →
      addLoop q ex pl = (pl, q, 0) := by
  induction q with
  | nil => intro ex pl _; rfl
  | cons x rest ih =>
    intro ex pl h
    have hx : x.webpage_url ∈ ex := h x (by simp)
    simp only [addLoop, if_pos hx]
    rw [ih ex pl (fun s hs => h s (by simp [hs]))]

/-- Invariant of the `add_to_playlist` merge loop: with the lookup set
exactly the playlist's references and a duplicate-free playlist, the
loop keeps the playlist duplicate-free, makes its reference set the
union, leaves the queue's references unchanged, and counts exactly the
distinct queue references that were unknown. -/
theorem addLoop_spec (q : List Song) :
    ∀ (ex : List String) (pl : List Song),
      (∀ r, r ∈ ex ↔ r ∈ pl.map Song.webpage_url) →
      (pl.map Song.webpage_url).Nodup →
      ((addLoop q ex pl).1.map Song.webpage_url).Nodup
      ∧ (∀ r, r ∈ (addLoop q ex pl).1.map Song.webpage_url ↔
          r ∈ pl.map Song.webpage_url ∨ r ∈ q.map Song.webpage_url)
      ∧ (addLoop q ex pl).2.1.map Song.webpage_url = q.map Song.webpage_url
      ∧ (addLoop q ex pl).2.2
          = ((q.map Song.webpage_url).toFinset \ ex.toFinset).card := by
  induction q with
  | nil =>
    intro ex pl _ hN
    refine ⟨hN, ?_, rfl, ?_⟩ <;> simp [addLoop]
  | cons x rest ih =>
    intro ex pl hex hN
    by_cases hx : x.webpage_url ∈ ex
    · obtain ⟨N1, U1, Q1, C1⟩ := ih ex pl hex hN
      have hpl : x.webpage_url ∈ pl.map Song.webpage_url := (hex _).mp hx
      simp only [addLoop, if_pos hx]
      refine ⟨N1, ?_, ?_, ?_⟩
      · intro r
        rw [U1 r]
        simp only [List.map_cons, List.mem_cons]
        constructor
        · rintro (h | h)
          · exact Or.inl h
          · exact Or.inr (Or.inr h)
        · rintro (h | h | h)
          · exact Or.inl h
          · subst h; exact Or.inl hpl
          · exact Or.inr h
      · simp only [List.map_cons, Q1]
      · rw [C1]
        simp only [List.map_cons, List.toFinset_cons]
        rw [Finset.insert_sdiff_of_mem _ (List.mem_toFinset.mpr hx)]
    · have hexn : x.webpage_url ∉ pl.map Song.webpage_url := fun h => hx ((hex _).mpr h)
      have hex' : ∀ r, r ∈ x.webpage_url :: ex ↔
          r ∈ (pl ++ [{ x with stream_url := some "" }]).map Song.webpage_url := by
        intro r
        simp only [List.mem_cons, List.map_append, List.mem_append, List.map_cons,
          List.map_nil, List.mem_singleton]
        rw [hex r]
        tauto
      have hN' : ((pl ++ [{ x with stream_url := some "" }]).map Song.webpage_url).Nodup := by
        simp only [List.map_append, List.map_cons, List.map_nil]
        rw [List.nodup_append]
        refine ⟨hN, List.nodup_singleton _, ?_⟩
        intro a ha hb
        simp only [List.mem_singleton] at hb
        subst hb
        exact hexn ha
      obtain ⟨N1, U1, Q1, C1⟩ := ih _ _ hex' hN'
      simp only [addLoop, if_neg hx]
      refine ⟨N1, ?_, ?_, ?_⟩
      · intro r
        rw [U1 r]
        simp only [List.map_append, List.mem_append, List.map_cons, List.map_nil,
          List.mem_singleton, List.mem_cons]
        tauto
      · simp only [List.map_cons, Q1]
      · rw [C1]
        simp only [List.map_cons, List.toFinset_cons]
        rw [Finset.sdiff_insert,
          Finset.insert_sdiff_of_not_mem _ (fun h => hx (List.mem_toFinset.mp h)),
          card_insert_eq_erase]

/-- C7: `add_to_playlist` computes the union of playlist and queue by
canonical reference: starting from a duplicate-free playlist the result
is duplicate-free (each reference at most once), its reference set is
the union of both reference sets, the reported count is exactly the
number of distinct queue references that were not yet present, and a
second call with the same queue contents adds nothing and leaves the
playlist unchanged. -/
theorem add_to_playlist_union_count (pl q : List Song)
    (hN : (pl.map Song.webpage_url).Nodup) :
    ((addToPlaylist pl q).1.map Song.webpage_url).Nodup
    ∧ ((addToPlaylist pl q).1.map Song.webpage_url).toFinset
        = (pl.map Song.webpage_url).toFinset ∪ (q.map Song.webpage_url).toFinset
    ∧ (addToPlaylist pl q).2.2
        = ((q.map Song.webpage_url).toFinset \ (pl.map Song.webpage_url).toFinset).card
    ∧ addToPlaylist (addToPlaylist pl q).1 (addToPlaylist pl q).2.1
        = ((addToPlaylist pl q).1, (addToPlaylist pl q).2.1, 0) := by
  obtain ⟨N1, U1, Q1, C1⟩ :=
    addLoop_spec q (pl.map Song.webpage_url) pl (fun _ => Iff.rfl) hN
  refine ⟨N1, ?_, C1, ?_⟩
  · ext r
    simp only [Finset.mem_union, List.mem_toFinset]
    exact U1 r
  · apply addLoop_all_present
    intro s hs
    unfold addToPlaylist at hs ⊢
    have hmem : s.webpage_url ∈ (addLoop q (pl.map Song.webpage_url) pl).2.1.map Song.webpage_url :=
      List.mem_map_of_mem _ hs
    rw [Q1] at hmem
    exact (U1 _).mpr (Or.inr hmem)

/-- C7 witness: a playlist with one song and a queue with one new and
one already-present reference. -/
theorem add_to_playlist_union_count_witness :
    ((addToPlaylist [⟨"p", some "", "wp", "u"⟩]
        [⟨"a", some "sa", "wa", "u"⟩, ⟨"b", some "sb", "wp", "u"⟩]).1.map Song.webpage_url).Nodup
    ∧ ((addToPlaylist [⟨"p", some "", "wp", "u"⟩]
        [⟨"a", some "sa", "wa", "u"⟩, ⟨"b", some "sb", "wp", "u"⟩]).1.map Song.webpage_url).toFinset
        = (([⟨"p", some "", "wp", "u"⟩] : List Song).map Song.webpage_url).toFinset
          ∪ (([⟨"a", some "sa", "wa", "u"⟩, ⟨"b", some "sb", "wp", "u"⟩] : List Song).map Song.webpage_url).toFinset
    ∧ (addToPlaylist [⟨"p", some "", "wp", "u"⟩]
        [⟨"a", some "sa", "wa", "u"⟩, ⟨"b", some "sb", "wp", "u"⟩]).2.2
        = ((([⟨"a", some "sa", "wa", "u"⟩, ⟨"b", some "sb", "wp", "u"⟩] : List Song).map Song.webpage_url).toFinset
            \ (([⟨"p", some "", "wp", "u"⟩] : List Song).map Song.webpage_url).toFinset).card
    ∧ addToPlaylist
        (addToPlaylist [⟨"p", some "", "wp", "u"⟩]
          [⟨"a", some "sa", "wa", "u"⟩, ⟨"b", some "sb", "wp", "u"⟩]).1
        (addToPlaylist [⟨"p", some "", "wp", "u"⟩]
          [⟨"a", some "sa", "wa", "u"⟩, ⟨"b", some "sb", "wp", "u"⟩]).2.1
        = ((addToPlaylist [⟨"p", some "", "wp", "u"⟩]
            [⟨"a", some "sa", "wa", "u"⟩, ⟨"b", some "sb", "wp", "u"⟩]).1,
           (addToPlaylist [⟨"p", some "", "wp", "u"⟩]
            [⟨"a", some "sa", "wa", "u"⟩, ⟨"b", some "sb", "wp", "u"⟩]).2.1, 0) :=
  add_to_playlist_union_count [⟨"p", some "", "wp", "u"⟩]
    [⟨"a", some "sa", "wa", "u"⟩, ⟨"b", some "sb", "wp", "u"⟩] (by decide)

/-- C8 counterexample: the record `write_playlist` persists for a
playlist built by `add_to_playlist` still carries a `stream_url` field
in its entry (with the cleared value `""`), so the persisted entries
are not locator-free `{title, canonicalReference, requester}` records. -/
theorem persisted_record_keeps_locator_field :
    persistRecord (addToPlaylist [] [⟨"t", some "live", "w", "u"⟩]).1
      = [[("title", PyVal.str "t"), ("stream_url", PyVal.str ""),
          ("webpage_url", PyVal.str "w"), ("requester", PyVal.str "u")]]
    ∧ ¬ (∀ e ∈ persistRecord (addToPlaylist [] [⟨"t", some "live", "w", "u"⟩]).1,
          ∀ kv ∈ e, kv.1 ≠ "stream_url")
    ∧ persistRecord (addToPlaylist [] [⟨"t", some "live", "w", "u"⟩]).1
        ≠ (addToPlaylist [] [⟨"t", some "live", "w", "u"⟩]).1.map specPersistEntry := by
  decide

/-- C8 amended: every persisted playlist entry is an ordered record
containing title, canonical reference and requester together with a
`stream_url` field, and every entry newly added by `add_to_playlist`
is persisted with that field cleared to `""`. -/
theorem persisted_record_shape (pl q : List Song) :
    ∀ e ∈ persistRecord (addToPlaylist pl q).1,
      (∃ t, ("title", PyVal.str t) ∈ e)
      ∧ (∃ w, ("webpage_url", PyVal.str w) ∈ e)
      ∧ (∃ r, ("requester", PyVal.str r) ∈ e)
      ∧ (∃ v, ("stream_url", v) ∈ e)
      ∧ (e ∈ persistRecord pl ∨ ("stream_url", PyVal.str "") ∈ e) := by
  intro e he
  obtain ⟨s, hs, rfl⟩ := List.mem_map.mp he
  refine ⟨⟨s.title, by simp [songFields]⟩, ⟨s.webpage_url, by simp [songFields]⟩,
    ⟨s.requester, by simp [songFields]⟩,
    ⟨(match s.stream_url with | some v => PyVal.str v | none => PyVal.nullv),
      by simp [songFields]⟩, ?_⟩
  rcases addLoop_mem q (pl.map Song.webpage_url) pl s hs with h | h
  · exact Or.inl (List.mem_map_of_mem _ h)
  · right
    simp [songFields, h]

/-- C8 amended witness: the single persisted entry of the playlist of
`persisted_record_keeps_locator_field`. -/
theorem persisted_record_shape_witness :
    (∃ t, ("title", PyVal.str t) ∈
      [("title", PyVal.str "t"), ("stream_url", PyVal.str ""),
       ("webpage_url", PyVal.str "w"), ("requester", PyVal.str "u")])
    ∧ (∃ w, ("webpage_url", PyVal.str w) ∈
      [("title", PyVal.str "t"), ("stream_url", PyVal.str ""),
       ("webpage_url", PyVal.str "w"), ("requester", PyVal.str "u")])
    ∧ (∃ r, ("requester", PyVal.str r) ∈
      [("title", PyVal.str "t"), ("stream_url", PyVal.str ""),
       ("webpage_url", PyVal.str "w"), ("requester", PyVal.str "u")])
    ∧ (∃ v, ("stream_url", v) ∈
      [("title", PyVal.str "t"), ("stream_url", PyVal.str ""),
       ("webpage_url", PyVal.str "w"), ("requester", PyVal.str "u")])
    ∧ ([("title", PyVal.str "t"), ("stream_url", PyVal.str ""),
        ("webpage_url", PyVal.str "w"), ("requester", PyVal.str "u")]
          ∈ persistRecord ([] : List Song)
       ∨ ("stream_url", PyVal.str "") ∈
          [("title", PyVal.str "t"), ("stream_url", PyVal.str ""),
           ("webpage_url", PyVal.str "w"), ("requester", PyVal.str "u")]) :=
  persisted_record_shape [] [⟨"t", some "live", "w", "u"⟩]
    [("title", PyVal.str "t"), ("stream_url", PyVal.str ""),
     ("webpage_url", PyVal.str "w"), ("requester", PyVal.str "u")] (by decide)

/-- Re-writing a song's locator with the value it already holds is the
identity. -/
theorem song_set_self (e : Song) (u : String) (h : e.stream_url = some u) :
    { e with stream_url := some u } = e := by
  cases e
  simp_all

/-- A queue whose every entry would be dropped is drained completely by
`play_next`, with no transport interaction at all. -/
theorem playNextAux_all_drop (env : Env) (q : List Song) :
    ∀ s : SessState, (∀ e ∈ q, dropsHead env e) →
      playNextAux env q s = { s with queue := ([] : List Song) } := by
  induction q with
  | nil => intro s _; rfl
  | cons e rest ih =>
    intro s h
    obtain ⟨h1, i, h2, h3⟩ := h e (by simp)
    have hrest : ∀ x ∈ rest, dropsHead env x := fun x hx => h x (by simp [hx])
    rcases h3 with h3 | h3 <;> simp [playNextAux, h1, h2, h3] <;> exact ih s hrest

/-- `play_next` drops a run of unresolvable heads and then starts the
first playable entry. -/
theorem playNextAux_skip_to (env : Env) (q₁ : List Song) :
    ∀ (e : Song) (q₂ : List Song) (s : SessState) (u : String),
      (∀ x ∈ q₁, dropsHead env x) → playsWith env e u →
      playNextAux env (q₁ ++ e :: q₂) s
        = startAndPrefetch env { e with stream_url := some u } q₂ s := by
  induction q₁ with
  | nil =>
    intro e q₂ s u _ hp
    obtain ⟨hu, hp⟩ := hp
    rcases hp with ⟨hne, heq⟩ | ⟨h1, i, h2, h3⟩
    · rw [List.nil_append, song_set_self e u heq]
      simp [playNextAux, hne]
    · rw [List.nil_append]
      simp [playNextAux, h1, h2, h3, hu]
  | cons x q₁ ih =>
    intro e q₂ s u hd hp
    obtain ⟨h1, i, h2, h3⟩ := hd x (by simp)
    have hrest : ∀ y ∈ q₁, dropsHead env y := fun y hy => hd y (by simp [hy])
    rcases h3 with h3 | h3 <;> simp [playNextAux, h1, h2, h3] <;>
      exact ih e q₂ s u hrest hp

/-- Starting a head with a present locator from an idle transport:
exactly one `vc.play`, no `vc.stop`, and the prefetch block shapes the
tail. -/
theorem startAndPrefetch_idle (env : Env) (song : Song) (rest : List Song) (s : SessState)
    (u : String) (h0 : s.outstanding = 0) (hl : song.stream_url = some u) :
    startAndPrefetch env song rest s
      = { s with queue := song :: prefetchNext env rest,
                 outstanding := 1,
                 starts := s.starts ++ [u] } := by
  obtain ⟨qq, oo, pp, ss, tt⟩ := s
  simp only at h0
  subst h0
  simp [startAndPrefetch, hl, vcPlay]

/-- C2 (amended): on an idle session, `play_next` on a queue whose
first `K` entries are unresolvable (cleared locator, extraction yields
no URL) and whose entry `K+1` is playable drops exactly those `K`
heads, starts exactly one playback with entry `K+1`'s locator and no
stop, and hands the remaining tail to the prefetch block (which may
additionally drop entry `K+2` when its own resolution yields no URL);
when instead every entry is unresolvable, the pass terminates with an
empty queue and no transport interaction — never unboundedly. -/
theorem play_next_bounded_skip (env : Env) (q₁ q₂ : List Song) (e : Song) (s : SessState)
    (u : String) (h0 : s.outstanding = 0) (hdrop : ∀ x ∈ q₁, dropsHead env x)
    (hplay : playsWith env e u) :
    (playNextAux env (q₁ ++ e :: q₂) s).queue
        = { e with stream_url := some u } :: prefetchNext env q₂
    ∧ (playNextAux env (q₁ ++ e :: q₂) s).starts = s.starts ++ [u]
    ∧ (playNextAux env (q₁ ++ e :: q₂) s).outstanding = 1
    ∧ (playNextAux env (q₁ ++ e :: q₂) s).stops = s.stops
    ∧ (∀ q', (∀ x ∈ q', dropsHead env x) →
        playNextAux env q' s = { s with queue := ([] : List Song) }) := by
  rw [playNextAux_skip_to env q₁ e q₂ s u hdrop hplay,
    startAndPrefetch_idle env _ q₂ s u h0 rfl]
  exact ⟨rfl, rfl, rfl, rfl, fun q' h => playNextAux_all_drop env q' s h⟩

/-- C2 witness: one unresolvable head before a resolvable entry, on an
idle session. -/
theorem play_next_bounded_skip_witness :
    (playNextAux envT ([⟨"B", some "", "wb", "r"⟩] ++ ⟨"G", some "", "wg", "r"⟩ :: [])
        ⟨[⟨"B", some "", "wb", "r"⟩, ⟨"G", some "", "wg", "r"⟩], 0, 0, [], 0⟩).queue
      = { (⟨"G", some "", "wg", "r"⟩ : Song) with stream_url := some "sg" }
          :: prefetchNext envT []
    ∧ (playNextAux envT ([⟨"B", some "", "wb", "r"⟩] ++ ⟨"G", some "", "wg", "r"⟩ :: [])
        ⟨[⟨"B", some "", "wb", "r"⟩, ⟨"G", some "", "wg", "r"⟩], 0, 0, [], 0⟩).starts
      = [] ++ ["sg"]
    ∧ (playNextAux envT ([⟨"B", some "", "wb", "r"⟩] ++ ⟨"G", some "", "wg", "r"⟩ :: [])
        ⟨[⟨"B", some "", "wb", "r"⟩, ⟨"G", some "", "wg", "r"⟩], 0, 0, [], 0⟩).outstanding = 1
    ∧ (playNextAux envT ([⟨"B", some "", "wb", "r"⟩] ++ ⟨"G", some "", "wg", "r"⟩ :: [])
        ⟨[⟨"B", some "", "wb", "r"⟩, ⟨"G", some "", "wg", "r"⟩], 0, 0, [], 0⟩).stops = 0
    ∧ (∀ q', (∀ x ∈ q', dropsHead envT x) →
        playNextAux envT q'
          (⟨[⟨"B", some "", "wb", "r"⟩, ⟨"G", some "", "wg", "r"⟩], 0, 0, [], 0⟩ : SessState)
          = { (⟨[⟨"B", some "", "wb", "r"⟩, ⟨"G", some "", "wg", "r"⟩], 0, 0, [], 0⟩ : SessState)
              with queue := ([] : List Song) }) :=
  play_next_bounded_skip envT [⟨"B", some "", "wb", "r"⟩] [] ⟨"G", some "", "wg", "r"⟩
    ⟨[⟨"B", some "", "wb", "r"⟩, ⟨"G", some "", "wg", "r"⟩], 0, 0, [], 0⟩ "sg" rfl
    (by
      intro x hx
      simp only [List.mem_singleton] at hx
      subst hx
      exact ⟨rfl, ⟨some "B", none, some "wb"⟩, by decide, Or.inl rfl⟩)
    ⟨by decide, Or.inr ⟨rfl, ⟨some "G", some "sg", some "wg"⟩, by decide, rfl⟩⟩

/-- C2 counterexample: queue `[B, X, Y]` whose first `K = 1` head `B`
is unresolvable; the claim demands that exactly one entry is dropped
(queue `[X, Y]` remains), but the same `play_next` pass additionally
prefetch-drops `Y`, leaving only `[X]`. -/
theorem play_next_overdrop_counterexample :
    (playNextAux envT
        [⟨"B", some "", "wb", "r"⟩, ⟨"X", some "sx", "wx", "r"⟩, ⟨"Y2", some "", "wb", "r"⟩]
        ⟨[⟨"B", some "", "wb", "r"⟩, ⟨"X", some "sx", "wx", "r"⟩, ⟨"Y2", some "", "wb", "r"⟩],
          0, 0, [], 0⟩).queue
      = [⟨"X", some "sx", "wx", "r"⟩]
    ∧ (playNextAux envT
        [⟨"B", some "", "wb", "r"⟩, ⟨"X", some "sx", "wx", "r"⟩, ⟨"Y2", some "", "wb", "r"⟩]
        ⟨[⟨"B", some "", "wb", "r"⟩, ⟨"X", some "sx", "wx", "r"⟩, ⟨"Y2", some "", "wb", "r"⟩],
          0, 0, [], 0⟩).queue
      ≠ [⟨"X", some "sx", "wx", "r"⟩, ⟨"Y2", some "", "wb", "r"⟩]
    ∧ (playNextAux envT
        [⟨"B", some "", "wb", "r"⟩, ⟨"X", some "sx", "wx", "r"⟩, ⟨"Y2", some "", "wb", "r"⟩]
        ⟨[⟨"B", some "", "wb", "r"⟩, ⟨"X", some "sx", "wx", "r"⟩, ⟨"Y2", some "", "wb", "r"⟩],
          0, 0, [], 0⟩).starts
      = ["sx"] := by
  decide

/-- C3 (amended): while the head (with a usable locator) is started,
the prefetch of a second entry with cleared locator never stops the
just-started playback (exactly one start, no stop, playing
afterwards); when its resolution raises, the entry stays in the queue
with its cleared locator, but when resolution returns no (or an empty)
stream URL, the entry is removed from the queue, and on success its
locator is filled in. -/
theorem prefetch_policy (env : Env) (hd nxt : Song) (rest : List Song) (s : SessState)
    (loc : String) (h0 : s.outstanding = 0) (hhd : hd.stream_url = some loc)
    (hloc : loc ≠ "") (hnxt : nxt.stream_url = some "") :
    (playNextAux env (hd :: nxt :: rest) s).starts = s.starts ++ [loc]
    ∧ (playNextAux env (hd :: nxt :: rest) s).stops = s.stops
    ∧ (playNextAux env (hd :: nxt :: rest) s).outstanding = 1
    ∧ (env.info nxt.webpage_url = none →
        (playNextAux env (hd :: nxt :: rest) s).queue = hd :: nxt :: rest)
    ∧ (∀ i, env.info nxt.webpage_url = some i → (i.url = none ∨ i.url = some "") →
        (playNextAux env (hd :: nxt :: rest) s).queue = hd :: rest)
    ∧ (∀ i v, env.info nxt.webpage_url = some i → i.url = some v → v ≠ "" →
        (playNextAux env (hd :: nxt :: rest) s).queue
          = hd :: { nxt with stream_url := some v } :: rest) := by
  have hne : ¬ hd.stream_url = some "" := by
    rw [hhd]
    simp [hloc]
  have hred : playNextAux env (hd :: nxt :: rest) s
      = startAndPrefetch env hd (nxt :: rest) s := by
    simp [playNextAux, hne]
  rw [hred, startAndPrefetch_idle env hd (nxt :: rest) s loc h0 hhd]
  refine ⟨rfl, rfl, rfl, ?_, ?_, ?_⟩
  · intro h
    simp [prefetchNext, hnxt, h]
  · intro i h hi
    rcases hi with hi | hi <;> simp [prefetchNext, hnxt, h, hi]
  · intro i v h hv hvne
    simp [prefetchNext, hnxt, h, hv, hvne]

/-- C3 witness: head `X` ready to play, second entry `B` with cleared
locator, on an idle session. -/
theorem prefetch_policy_witness :
    (playNextAux envT [⟨"X", some "sx", "wx", "r"⟩, ⟨"B", some "", "wb", "r"⟩]
        ⟨[⟨"X", some "sx", "wx", "r"⟩, ⟨"B", some "", "wb", "r"⟩], 0, 0, [], 0⟩).starts
      = [] ++ ["sx"]
    ∧ (playNextAux envT [⟨"X", some "sx", "wx", "r"⟩, ⟨"B", some "", "wb", "r"⟩]
        ⟨[⟨"X", some "sx", "wx", "r"⟩, ⟨"B", some "", "wb", "r"⟩], 0, 0, [], 0⟩).stops = 0
    ∧ (playNextAux envT [⟨"X", some "sx", "wx", "r"⟩, ⟨"B", some "", "wb", "r"⟩]
        ⟨[⟨"X", some "sx", "wx", "r"⟩, ⟨"B", some "", "wb", "r"⟩], 0, 0, [], 0⟩).outstanding = 1
    ∧ (envT.info (⟨"B", some "", "wb", "r"⟩ : Song).webpage_url = none →
        (playNextAux envT [⟨"X", some "sx", "wx", "r"⟩, ⟨"B", some "", "wb", "r"⟩]
          ⟨[⟨"X", some "sx", "wx", "r"⟩, ⟨"B", some "", "wb", "r"⟩], 0, 0, [], 0⟩).queue
          = ⟨"X", some "sx", "wx", "r"⟩ :: ⟨"B", some "", "wb", "r"⟩ :: [])
    ∧ (∀ i, envT.info (⟨"B", some "", "wb", "r"⟩ : Song).webpage_url = some i →
        (i.url = none ∨ i.url = some "") →
        (playNextAux envT [⟨"X", some "sx", "wx", "r"⟩, ⟨"B", some "", "wb", "r"⟩]
          ⟨[⟨"X", some "sx", "wx", "r"⟩, ⟨"B", some "", "wb", "r"⟩], 0, 0, [], 0⟩).queue
          = ⟨"X", some "sx", "wx", "r"⟩ :: [])
    ∧ (∀ i v, envT.info (⟨"B", some "", "wb", "r"⟩ : Song).webpage_url = some i →
        i.url = some v → v ≠ "" →
        (playNextAux envT [⟨"X", some "sx", "wx", "r"⟩, ⟨"B", some "", "wb", "r"⟩]
          ⟨[⟨"X", some "sx", "wx", "r"⟩, ⟨"B", some "", "wb", "r"⟩], 0, 0, [], 0⟩).queue
          = ⟨"X", some "sx", "wx", "r"⟩
              :: { (⟨"B", some "", "wb", "r"⟩ : Song) with stream_url := some v } :: []) :=
  prefetch_policy envT ⟨"X", some "sx", "wx", "r"⟩ ⟨"B", some "", "wb", "r"⟩ []
    ⟨[⟨"X", some "sx", "wx", "r"⟩, ⟨"B", some "", "wb", "r"⟩], 0, 0, [], 0⟩ "sx"
    rfl rfl (by decide) rfl

/-- C3 counterexample: prefetch of the second entry `B` (cleared
locator, extraction succeeds with no URL) while head `X` plays does not
leave `B` queued — the pass removes `B` from the queue. -/
theorem prefetch_drop_counterexample :
    (playNextAux envT [⟨"X", some "sx", "wx", "r"⟩, ⟨"B", some "", "wb", "r"⟩]
        ⟨[⟨"X", some "sx", "wx", "r"⟩, ⟨"B", some "", "wb", "r"⟩], 0, 0, [], 0⟩).queue
      = [⟨"X", some "sx", "wx", "r"⟩]
    ∧ (⟨"B", some "", "wb", "r"⟩ : Song)
        ∉ (playNextAux envT [⟨"X", some "sx", "wx", "r"⟩, ⟨"B", some "", "wb", "r"⟩]
            ⟨[⟨"X", some "sx", "wx", "r"⟩, ⟨"B", some "", "wb", "r"⟩], 0, 0, [], 0⟩).queue
    ∧ (playNextAux envT [⟨"X", some "sx", "wx", "r"⟩, ⟨"B", some "", "wb", "r"⟩]
        ⟨[⟨"X", some "sx", "wx", "r"⟩, ⟨"B", some "", "wb", "r"⟩], 0, 0, [], 0⟩).starts
      = ["sx"] := by
  decide

/-- Starting a head keeps at most one start outstanding: the source
stops the transport first whenever it is still playing. -/
theorem startAndPrefetch_out_le (env : Env) (song : Song) (rest : List Song)
    (s : SessState) (h : s.outstanding ≤ 1) :
    (startAndPrefetch env song rest s).outstanding ≤ 1 := by
  unfold startAndPrefetch
  cases song.stream_url with
  | none => exact h
  | some loc =>
    simp only [vcPlay, vcStop]
    split <;> simp <;> omega

/-- `play_next` keeps at most one start outstanding. -/
theorem playNextAux_out_le (env : Env) (q : List Song) :
    ∀ s : SessState, s.outstanding ≤ 1 → (playNextAux env q s).outstanding ≤ 1 := by
  induction q with
  | nil => intro s h; exact h
  | cons e rest ih =>
    intro s h
    by_cases h1 : e.stream_url = some ""
    · rcases h2 : env.info e.webpage_url with _ | i
      · simpa [playNextAux, h1, h2] using h
      · rcases h3 : i.url with _ | u
        · simpa [playNextAux, h1, h2, h3] using ih s h
        · by_cases h4 : u = ""
          · simpa [playNextAux, h1, h2, h3, h4] using ih s h
          · simpa [playNextAux, h1, h2, h3, h4] using
              startAndPrefetch_out_le env _ rest s h
    · simpa [playNextAux, h1] using startAndPrefetch_out_le env e rest s h

/-- `start_playback` keeps at most one start outstanding. -/
theorem startPlayback_out_le (env : Env) (s : SessState) (h : s.outstanding ≤ 1) :
    (startPlayback env s).outstanding ≤ 1 := by
  unfold startPlayback playNext
  split
  · exact h
  · exact playNextAux_out_le env _ _ h

/-- Every session step keeps at most one start outstanding. -/
theorem stepEv_out_le (env : Env) (e : Ev) (s : SessState) (h : s.outstanding ≤ 1) :
    (stepEv env e s).outstanding ≤ 1 := by
  cases e with
  | play url req =>
    simp only [stepEv]
    unfold playCmd
    rcases h2 : env.info url with _ | i
    · exact h
    · exact startPlayback_out_le env _ h
  | skip =>
    simp only [stepEv]
    unfold skipOp
    split
    · split
      · exact h
      · simp only [vcStop]
        omega
    · exact h
  | clear =>
    by_cases hc : 0 < s.outstanding
    · simp [stepEv, clearCmd, vcStop, hc]
      omega
    · simp [stepEv, clearCmd, vcStop, hc]
      exact h
  | shuffle rand => exact h
  | finish =>
    simp only [stepEv]
    unfold naturalFinish
    split
    · simp only
      omega
    · exact h
  | signal =>
    simp only [stepEv]
    unfold deliverSignal
    split
    · unfold safePlayNext
      split
      · exact h
      · exact playNextAux_out_le env _ _ h
    · exact h

/-- C5: on every reachable session state at most one transport start is
outstanding, and enqueueing while a track is playing only appends the
resolved song to the tail of the queue — it changes nothing else and in
particular issues no new transport start. -/
theorem one_outstanding_start (env : Env) :
    (∀ s, Reachable env s → s.outstanding ≤ 1)
    ∧ (∀ (s : SessState) (url requester : String), 0 < s.outstanding →
        playCmd env url requester s
          = { s with queue := s.queue ++ enqSongs env url requester }) := by
  constructor
  · intro s h
    induction h with
    | init => exact Nat.zero_le 1
    | step e h ih => exact stepEv_out_le env e _ ih
  · intro s url requester hplay
    unfold playCmd enqSongs
    rcases h2 : env.info url with _ | i
    · simp
    · unfold startPlayback
      dsimp only
      rw [if_pos hplay]

/-- C5 witness: a fresh session is reachable with at most one start
outstanding, and enqueueing `uY` while `X` is playing only appends. -/
theorem one_outstanding_start_witness :
    initSess.outstanding ≤ 1
    ∧ playCmd envT "uY" "bob" ⟨[⟨"X", some "sx", "wx", "alice"⟩], 1, 0, ["sx"], 0⟩
        = { (⟨[⟨"X", some "sx", "wx", "alice"⟩], 1, 0, ["sx"], 0⟩ : SessState) with
            queue := [⟨"X", some "sx", "wx", "alice"⟩] ++ enqSongs envT "uY" "bob" } :=
  ⟨(one_outstanding_start envT).1 initSess Reachable.init,
   (one_outstanding_start envT).2 ⟨[⟨"X", some "sx", "wx", "alice"⟩], 1, 0, ["sx"], 0⟩
     "uY" "bob" (by decide)⟩

/-- C1 (code bug): run `play uX`, then `clear` (which stops `X` and
leaves one completion signal pending), then `play uY` (which starts
`Y`); delivering the stale signal of the cleared track pops the
unrelated, newly enqueued `Y` — the queue becomes empty while `Y` is
still playing — even though the claim demands a no-op.  The second
half of the claim does hold: a signal delivered to an idle session
with an empty queue leaves the state unchanged apart from consuming
the signal, and starts nothing. -/
theorem stale_signal_pops_new_track :
    (playCmd envT "uY" "bob" (clearCmd (playCmd envT "uX" "alice" initSess))).queue
      = [⟨"Y", some "sy", "wy", "bob"⟩]
    ∧ (playCmd envT "uY" "bob" (clearCmd (playCmd envT "uX" "alice" initSess))).outstanding = 1
    ∧ (playCmd envT "uY" "bob" (clearCmd (playCmd envT "uX" "alice" initSess))).pending = 1
    ∧ (deliverSignal envT
        (playCmd envT "uY" "bob" (clearCmd (playCmd envT "uX" "alice" initSess)))).queue = []
    ∧ (deliverSignal envT
        (playCmd envT "uY" "bob" (clearCmd (playCmd envT "uX" "alice" initSess)))).outstanding = 1
    ∧ deliverSignal envT ⟨[], 0, 1, [], 0⟩ = ⟨[], 0, 0, [], 0⟩ := by
  decide

/-- C4: `skip` never removes anything from the queue — in every case
(not playing, absent queue, empty queue, playing a head) the queue
after the handler equals the queue before, and the same holds for the
`skip` step of the session model; when not playing it only replies;
when playing with a head present it requests exactly a transport stop
(and raises nothing), leaving the pop to the completion-signal path. -/
theorem skip_never_pops (playing : Bool) (q : Option (List Song)) :
    (skipCmd playing q).queueAfter = q
    ∧ (playing = false → skipCmd playing q = ⟨q, false, true, false⟩)
    ∧ (∀ x rest, playing = true → q = some (x :: rest) →
        (skipCmd playing q).stopCalled = true ∧ (skipCmd playing q).raised = false)
    ∧ (∀ s : SessState, (skipOp s).queue = s.queue) := by
  have hop : ∀ s : SessState, (skipOp s).queue = s.queue := by
    intro s
    unfold skipOp
    split
    · split
      · rfl
      · rfl
    · rfl
  refine ⟨?_, ?_, ?_, hop⟩
  · cases playing <;> rcases q with _ | (_ | ⟨x, rest⟩) <;> rfl
  · intro hp
    subst hp
    rfl
  · intro x rest hp hq
    subst hp
    subst hq
    exact ⟨rfl, rfl⟩

/-- C4 witness: skipping while playing `[Y, Z]`. -/
theorem skip_never_pops_witness :
    (skipCmd true (some [⟨"Y", some "sy", "wy", "r"⟩, ⟨"Z", some "sz", "wz", "r"⟩])).queueAfter
      = some [⟨"Y", some "sy", "wy", "r"⟩, ⟨"Z", some "sz", "wz", "r"⟩]
    ∧ (true = false →
        skipCmd true (some [⟨"Y", some "sy", "wy", "r"⟩, ⟨"Z", some "sz", "wz", "r"⟩])
          = ⟨some [⟨"Y", some "sy", "wy", "r"⟩, ⟨"Z", some "sz", "wz", "r"⟩], false, true, false⟩)
    ∧ (∀ (x : Song) (rest : List Song), true = true →
        (some [⟨"Y", some "sy", "wy", "r"⟩, ⟨"Z", some "sz", "wz", "r"⟩]
          : Option (List Song)) = some (x :: rest) →
        (skipCmd true (some [⟨"Y", some "sy", "wy", "r"⟩, ⟨"Z", some "sz", "wz", "r"⟩])).stopCalled
          = true
        ∧ (skipCmd true (some [⟨"Y", some "sy", "wy", "r"⟩, ⟨"Z", some "sz", "wz", "r"⟩])).raised
          = false)
    ∧ (∀ s : SessState, (skipOp s).queue = s.queue) :=
  skip_never_pops true (some [⟨"Y", some "sy", "wy", "r"⟩, ⟨"Z", some "sz", "wz", "r"⟩])

/-- C10: the `skip` handler raises an uncaught `IndexError` exactly
when the transport is playing but the guild's queue exists and is
empty; in that case it raises before any reply and before any
transport stop.  With an absent or non-empty queue it never raises. -/
theorem skip_empty_queue_raises (playing : Bool) (q : Option (List Song)) :
    ((skipCmd playing q).raised = true ↔ (playing = true ∧ q = some []))
    ∧ ((skipCmd playing q).raised = true →
        (skipCmd playing q).stopCalled = false ∧ (skipCmd playing q).replied = false) := by
  cases playing <;> rcases q with _ | (_ | _) <;> simp [skipCmd]

/-- C10 witness: playing with an existing empty queue. -/
theorem skip_empty_queue_raises_witness :
    ((skipCmd true (some ([] : List Song))).raised = true
      ↔ (true = true ∧ some ([] : List Song) = some ([] : List Song)))
    ∧ ((skipCmd true (some ([] : List Song))).raised = true →
        (skipCmd true (some ([] : List Song))).stopCalled = false
        ∧ (skipCmd true (some ([] : List Song))).replied = false) :=
  skip_empty_queue_raises true (some [])

/-- `setLoc` only touches the locator, never the canonical reference. -/
theorem setLoc_webpage (st : Store) (id : Nat) (v : Option String) (k : Nat) :
    ((setLoc st id v) k).webpage_url = (st k).webpage_url := by
  unfold setLoc
  split <;> rfl

/-- Behaviour of the heap-level `add_to_playlist` loop: the playlist
grows by a list of identities taken from the queue, the count is their
number, each such object is cleared in place (all other fields kept),
its reference was unknown, and every other object is untouched. -/
theorem atpH_spec (q : List Nat) :
    ∀ (st : Store) (ex : List String) (pl : List Nat),
      ∃ ns,
        (atpH st ex pl q).2.1 = pl ++ ns
        ∧ (atpH st ex pl q).2.2 = ns.length
        ∧ (∀ id ∈ ns, id ∈ q
            ∧ (atpH st ex pl q).1 id = { st id with stream_url := some "" }
            ∧ (st id).webpage_url ∉ ex)
        ∧ (∀ j, j ∉ ns → (atpH st ex pl q).1 j = st j) := by
  induction q with
  | nil =>
    intro st ex pl
    exact ⟨[], by simp [atpH], rfl, by simp, fun j _ => rfl⟩
  | cons id rest ih =>
    intro st ex pl
    by_cases hx : (st id).webpage_url ∈ ex
    · obtain ⟨ns, h1, h2, h3, h4⟩ := ih st ex pl
      refine ⟨ns, ?_, ?_, ?_, ?_⟩ <;> simp only [atpH, if_pos hx]
      · exact h1
      · exact h2
      · intro j hj
        obtain ⟨hq, hst, hex⟩ := h3 j hj
        exact ⟨by simp [hq], hst, hex⟩
      · exact h4
    · obtain ⟨ns, h1, h2, h3, h4⟩ :=
        ih (setLoc st id (some "")) ((st id).webpage_url :: ex) (pl ++ [id])
      have hnotns : id ∉ ns := by
        intro hmem
        have := (h3 id hmem).2.2
        simp [setLoc] at this
      refine ⟨id :: ns, ?_, ?_, ?_, ?_⟩ <;> simp only [atpH, if_neg hx, atpHsucc]
      · rw [h1, List.append_assoc]
        rfl
      · rw [h2]
        rfl
      · intro j hj
        rcases List.mem_cons.mp hj with hje | hjm
        · subst hje
          refine ⟨by simp, ?_, hx⟩
          rw [h4 _ hnotns]
          simp [setLoc]
        · have hjid : j ≠ id := by
            intro hh
            subst hh
            exact hnotns hjm
          obtain ⟨hq, hst, hex⟩ := h3 j hjm
          refine ⟨by simp [hq], ?_, ?_⟩
          · rw [hst]
            simp [setLoc, hjid]
          · intro hcon
            apply hex
            rw [setLoc_webpage]
            exact List.mem_cons_of_mem _ hcon
      · intro j hj
        have hjid : j ≠ id := fun hh => hj (by simp [hh])
        have hjns : j ∉ ns := fun hh => hj (by simp [hh])
        rw [h4 j hjns]
        simp [setLoc, hjid]

/-- Behaviour of the heap-level `play_playlist` loop: the queue grows
by identities taken from the playlist itself, each such shared object
cleared in place and every other object untouched. -/
theorem ppH_spec (pl : List Nat) :
    ∀ (st : Store) (ex : List String) (q : List Nat),
      ∃ ms,
        (ppH st ex q pl).2 = q ++ ms
        ∧ (∀ id ∈ ms, id ∈ pl
            ∧ (ppH st ex q pl).1 id = { st id with stream_url := some "" }
            ∧ (st id).webpage_url ∉ ex)
        ∧ (∀ j, j ∉ ms → (ppH st ex q pl).1 j = st j) := by
  induction pl with
  | nil =>
    intro st ex q
    exact ⟨[], by simp [ppH], by simp, fun j _ => rfl⟩
  | cons id rest ih =>
    intro st ex q
    by_cases hx : (st id).webpage_url ∈ ex
    · obtain ⟨ms, h1, h3, h4⟩ := ih st ex q
      refine ⟨ms, ?_, ?_, ?_⟩ <;> simp only [ppH, if_pos hx]
      · exact h1
      · intro j hj
        obtain ⟨hq, hst, hex⟩ := h3 j hj
        exact ⟨by simp [hq], hst, hex⟩
      · exact h4
    · obtain ⟨ms, h1, h3, h4⟩ :=
        ih (setLoc st id (some "")) ((st id).webpage_url :: ex) (q ++ [id])
      have hnotms : id ∉ ms := by
        intro hmem
        have := (h3 id hmem).2.2
        simp [setLoc] at this
      refine ⟨id :: ms, ?_, ?_, ?_⟩ <;> simp only [ppH, if_neg hx]
      · rw [h1, List.append_assoc]
        rfl
      · intro j hj
        rcases List.mem_cons.mp hj with hje | hjm
        · subst hje
          refine ⟨by simp, ?_, hx⟩
          rw [h4 _ hnotms]
          simp [setLoc]
        · have hjid : j ≠ id := by
            intro hh
            subst hh
            exact hnotms hjm
          obtain ⟨hq, hst, hex⟩ := h3 j hjm
          refine ⟨by simp [hq], ?_, ?_⟩
          · rw [hst]
            simp [setLoc, hjid]
          · intro hcon
            apply hex
            rw [setLoc_webpage]
            exact List.mem_cons_of_mem _ hcon
      · intro j hj
        have hjid : j ≠ id := fun hh => hj (by simp [hh])
        have hjns : j ∉ ms := fun hh => hj (by simp [hh])
        rw [h4 j hjns]
        simp [setLoc, hjid]

/-- C9: both merge directions share the very song objects instead of
copying.  `add_to_playlist` appends to the playlist identities drawn
from the live queue and clears each such object's locator in place —
so the queued track itself loses its resolved locator — and
`play_playlist` appends the playlist's own objects to the queue,
clearing the playlist's in-memory entries in place; objects that are
not newly merged are untouched in both directions. -/
theorem merge_shares_entry_objects (st : Store) (queue pl ql q2 : List Nat) :
    (∃ ns,
      (addToPlaylistShared st queue pl).2.1 = pl ++ ns
      ∧ (addToPlaylistShared st queue pl).2.2 = ns.length
      ∧ (∀ id ∈ ns, id ∈ queue
          ∧ (addToPlaylistShared st queue pl).1 id = { st id with stream_url := some "" })
      ∧ (∀ j, j ∉ ns → (addToPlaylistShared st queue pl).1 j = st j))
    ∧ (∃ ms,
      (playPlaylistShared st ql q2).2 = q2 ++ ms
      ∧ (∀ id ∈ ms, id ∈ ql
          ∧ (playPlaylistShared st ql q2).1 id = { st id with stream_url := some "" })
      ∧ (∀ j, j ∉ ms → (playPlaylistShared st ql q2).1 j = st j)) := by
  constructor
  · obtain ⟨ns, h1, h2, h3, h4⟩ :=
      atpH_spec queue st (pl.map fun id => (st id).webpage_url) pl
    exact ⟨ns, h1, h2, fun id hid => ⟨(h3 id hid).1, (h3 id hid).2.1⟩, h4⟩
  · obtain ⟨ms, h1, h3, h4⟩ :=
      ppH_spec ql st (q2.map fun id => (st id).webpage_url) q2
    exact ⟨ms, h1, fun id hid => ⟨(h3 id hid).1, (h3 id hid).2.1⟩, h4⟩

/-- C9 witness: a one-object heap, a queue holding object `0` merged
into an empty playlist, and a playlist holding object `1` merged into
an empty queue. -/
theorem merge_shares_entry_objects_witness :
    (∃ ns,
      (addToPlaylistShared (fun _ => (⟨"t", some "s", "w", "u"⟩ : Song)) [0] []).2.1
        = [] ++ ns
      ∧ (addToPlaylistShared (fun _ => (⟨"t", some "s", "w", "u"⟩ : Song)) [0] []).2.2
        = ns.length
      ∧ (∀ id ∈ ns, id ∈ [0]
          ∧ (addToPlaylistShared (fun _ => (⟨"t", some "s", "w", "u"⟩ : Song)) [0] []).1 id
            = { (fun _ => (⟨"t", some "s", "w", "u"⟩ : Song)) id with stream_url := some "" })
      ∧ (∀ j, j ∉ ns →
          (addToPlaylistShared (fun _ => (⟨"t", some "s", "w", "u"⟩ : Song)) [0] []).1 j
            = (fun _ => (⟨"t", some "s", "w", "u"⟩ : Song)) j))
    ∧ (∃ ms,
      (playPlaylistShared (fun _ => (⟨"t", some "s", "w", "u"⟩ : Song)) [1] []).2
        = [] ++ ms
      ∧ (∀ id ∈ ms, id ∈ [1]
          ∧ (playPlaylistShared (fun _ => (⟨"t", some "s", "w", "u"⟩ : Song)) [1] []).1 id
            = { (fun _ => (⟨"t", some "s", "w", "u"⟩ : Song)) id with stream_url := some "" })
      ∧ (∀ j, j ∉ ms →
          (playPlaylistShared (fun _ => (⟨"t", some "s", "w", "u"⟩ : Song)) [1] []).1 j
            = (fun _ => (⟨"t", some "s", "w", "u"⟩ : Song)) j)) :=
  merge_shares_entry_objects (fun _ => (⟨"t", some "s", "w", "u"⟩ : Song)) [0] [] [1] []

end PlayBot
